import Mathlib

/-
Verification of the CPG (central pattern generator) oscillator network
from cpgnet.py and the joint-angle mapping from kinematics.py.

Modelling choices:
  * numpy float64 arithmetic is modelled over the real numbers ℝ;
  * numpy 1-D arrays are `List ℝ`, 2-D arrays are `List (List ℝ)`;
    element access a[i] is `List.getD i 0` (rows: `List.getD i []`);
  * `np.random.RandomState` is modelled as a stream `random_state : ℕ → ℝ`
    of draws (each in [0, 1) for a real generator) together with a cursor
    `random_index` recording how many draws have been consumed;
  * the Python `assert` block of `CPGNetwork.__init__` is modelled by a
    boolean shape check; construction returns `none` when an assert fails.
-/

noncomputable section

namespace CPG

/-- State and parameters of the oscillator network, mirroring the instance
attributes of the Python class `CPGNetwork`. -/
structure CPGNetwork where
  timestep : ℝ
  num_cpgs : ℕ
  intrinsic_freqs : List ℝ
  intrinsic_amps : List ℝ
  coupling_weights : List (List ℝ)
  phase_biases : List (List ℝ)
  convergence_coefs : List ℝ
  curr_phases : List ℝ
  curr_magnitudes : List ℝ
  random_state : ℕ → ℝ
  random_index : ℕ

/-- Transcription of `calculate_ddt(theta, r, w, phi, nu, R, alpha)`:
`phase_diff[i, j] = theta[j] - theta[i]`,
`coupling_term[i] = Σ_j r[j] * w[i, j] * sin(phase_diff[i, j] - phi[i, j])`,
`dtheta_dt = 2π·nu + coupling_term`, `dr_dt = alpha * (R - r)`. -/
def calculate_ddt (theta r : List ℝ) (w phi : List (List ℝ))
    (nu R alpha : List ℝ) : List ℝ × List ℝ :=
  ((List.range theta.length).map (fun i =>
      2 * Real.pi * nu.getD i 0 +
        ∑ j ∈ Finset.range theta.length,
          r.getD j 0 * ((w.getD i []).getD j 0) *
            Real.sin (theta.getD j 0 - theta.getD i 0 - ((phi.getD i []).getD j 0))),
   (List.range r.length).map (fun i => alpha.getD i 0 * (R.getD i 0 - r.getD i 0)))

/-- Transcription of `CPGNetwork.step`: compute both derivative vectors from
the pre-step state, then update `curr_phases += dtheta_dt * timestep` and
`curr_magnitudes += dr_dt * timestep` elementwise. -/
def CPGNetwork.step (net : CPGNetwork) : CPGNetwork :=
  let d := calculate_ddt net.curr_phases net.curr_magnitudes
    net.coupling_weights net.phase_biases
    net.intrinsic_freqs net.intrinsic_amps net.convergence_coefs
  { net with
    curr_phases :=
      List.zipWith (fun th dth => th + dth * net.timestep) net.curr_phases d.1,
    curr_magnitudes :=
      List.zipWith (fun r dr => r + dr * net.timestep) net.curr_magnitudes d.2 }

/-- Transcription of `CPGNetwork.reset`: with `init_phases` omitted, draw
`num_cpgs` fresh samples from the instance random source and scale each by
`2π` (`self.random_state.random(self.num_cpgs) * 2 * np.pi`); with
`init_magnitudes` omitted, install the zero vector; supplied vectors are
installed as-is. -/
def CPGNetwork.reset (net : CPGNetwork)
    (init_phases init_magnitudes : Option (List ℝ)) : CPGNetwork :=
  let phases : List ℝ × ℕ :=
    match init_phases with
    | none =>
        ((List.range net.num_cpgs).map
          (fun k => net.random_state (net.random_index + k) * 2 * Real.pi),
         net.random_index + net.num_cpgs)
    | some p => (p, net.random_index)
  let mags : List ℝ :=
    match init_magnitudes with
    | none => List.replicate net.num_cpgs (0 : ℝ)
    | some m => m
  { net with
    curr_phases := phases.1
    curr_magnitudes := mags
    random_index := phases.2 }

/-- The shape-assert block at the end of `CPGNetwork.__init__`, transcribed
assert by assert.  Note the source checks `intrinsic_freqs`,
`coupling_weights`, `phase_biases`, `convergence_coefs`, `curr_phases` and
`curr_magnitudes`, but has no assert for `intrinsic_amps`. -/
def shape_asserts (intrinsic_freqs : List ℝ)
    (coupling_weights phase_biases : List (List ℝ))
    (convergence_coefs curr_phases curr_magnitudes : List ℝ)
    (num_cpgs : ℕ) : Bool :=
  (intrinsic_freqs.length == num_cpgs) &&
  ((coupling_weights.length == num_cpgs) &&
    coupling_weights.all (fun row => row.length == num_cpgs)) &&
  ((phase_biases.length == num_cpgs) &&
    phase_biases.all (fun row => row.length == num_cpgs)) &&
  (convergence_coefs.length == num_cpgs) &&
  (curr_phases.length == num_cpgs) &&
  (curr_magnitudes.length == num_cpgs)

/-- Transcription of `CPGNetwork.__init__`: store the parameters, set
`num_cpgs` from the length of `intrinsic_freqs`, seed the random source,
call `reset`, then run the shape asserts; a failed assert aborts
construction (modelled as `none`). -/
def CPGNetwork.init (timestep : ℝ) (intrinsic_freqs intrinsic_amps : List ℝ)
    (coupling_weights phase_biases : List (List ℝ))
    (convergence_coefs : List ℝ)
    (init_phases init_magnitudes : Option (List ℝ))
    (random_source : ℕ → ℝ) : Option CPGNetwork :=
  let base : CPGNetwork :=
    { timestep := timestep
      num_cpgs := intrinsic_freqs.length
      intrinsic_freqs := intrinsic_freqs
      intrinsic_amps := intrinsic_amps
      coupling_weights := coupling_weights
      phase_biases := phase_biases
      convergence_coefs := convergence_coefs
      curr_phases := []
      curr_magnitudes := []
      random_state := random_source
      random_index := 0 }
  let net := base.reset init_phases init_magnitudes
  if shape_asserts intrinsic_freqs coupling_weights phase_biases
      convergence_coefs net.curr_phases net.curr_magnitudes net.num_cpgs
  then some net else none

/-- Iterated stepping: `stepk k net` is the state after `k` calls to
`step()`. -/
def stepk : ℕ → CPGNetwork → CPGNetwork
  | 0, net => net
  | k + 1, net => (stepk k net).step

/-- Transcription of `get_go1_target_angles(phase, amplitude)` from
kinematics.py: `s = sin(phase)`, hip is `0.0`, thigh is
`0.8 - (amplitude * 0.3) * s`, calf is `-1.6 - (amplitude * 0.7) * s` in
the lift phase (`s > 0`) and `-1.6` in the stance phase. -/
def get_go1_target_angles (phase amplitude : ℝ) : List ℝ :=
  let s := Real.sin phase
  let angle_hip : ℝ := 0.0
  let angle_thigh : ℝ := 0.8 - (amplitude * 0.3) * s
  let base_calf : ℝ := -1.6
  let angle_calf : ℝ :=
    if s > 0 then base_calf - (amplitude * 0.7) * s else base_calf
  [angle_hip, angle_thigh, angle_calf]

/-! Concrete example networks used to instantiate the theorems below. -/

/-- A consistently shaped single-oscillator network. -/
def netW1 : CPGNetwork :=
  { timestep := 1, num_cpgs := 1, intrinsic_freqs := [1], intrinsic_amps := [1],
    coupling_weights := [[1]], phase_biases := [[0]], convergence_coefs := [1],
    curr_phases := [0], curr_magnitudes := [1],
    random_state := fun _ => 0, random_index := 0 }

/-- Same parameters and state as `netW1`, but a different random source and
cursor. -/
def netW8 : CPGNetwork :=
  { netW1 with random_state := fun _ => 1, random_index := 5 }

/-- Same timestep, convergence coefficients, intrinsic amplitudes and state
magnitudes as `netW1`, but different phases, frequencies, coupling weights
and phase biases. -/
def netW10 : CPGNetwork :=
  { timestep := 1, num_cpgs := 1, intrinsic_freqs := [5], intrinsic_amps := [1],
    coupling_weights := [[3]], phase_biases := [[2]], convergence_coefs := [1],
    curr_phases := [7], curr_magnitudes := [1],
    random_state := fun _ => 0, random_index := 0 }

/-- A single-oscillator network with zero coupling, unit convergence
coefficient and unit timestep. -/
def netZ : CPGNetwork :=
  { timestep := 1, num_cpgs := 1, intrinsic_freqs := [1], intrinsic_amps := [1],
    coupling_weights := [[0]], phase_biases := [[0]], convergence_coefs := [1],
    curr_phases := [0], curr_magnitudes := [0],
    random_state := fun _ => 0, random_index := 0 }

/-- A consistently shaped two-oscillator network. -/
def netA : CPGNetwork :=
  { timestep := 1, num_cpgs := 2, intrinsic_freqs := [1, 1],
    intrinsic_amps := [1, 1], coupling_weights := [[0, 0], [0, 0]],
    phase_biases := [[0, 0], [0, 0]], convergence_coefs := [1, 1],
    curr_phases := [0, 0], curr_magnitudes := [0, 0],
    random_state := fun _ => 0, random_index := 0 }

/-- A single-oscillator zero-coupling network whose convergence coefficient
times timestep is 3, outside the forward-Euler stability region. -/
def netB : CPGNetwork :=
  { timestep := 1, num_cpgs := 1, intrinsic_freqs := [0], intrinsic_amps := [1],
    coupling_weights := [[0]], phase_biases := [[0]], convergence_coefs := [3],
    curr_phases := [0], curr_magnitudes := [0],
    random_state := fun _ => 0, random_index := 0 }

/-! Helper lemmas about list access. -/

theorem getD_zipWith (f : ℝ → ℝ → ℝ) (a b : List ℝ) (i : ℕ)
    (ha : i < a.length) (hb : i < b.length) :
    (List.zipWith f a b).getD i 0 = f (a.getD i 0) (b.getD i 0) := by
  rw [List.getD_eq_getElem?_getD, List.getD_eq_getElem?_getD,
    List.getD_eq_getElem?_getD]
  rw [List.getElem?_eq_getElem ha, List.getElem?_eq_getElem hb,
    List.getElem?_eq_getElem (by simp [List.length_zipWith]; omega)]
  simp [List.getElem_zipWith]

theorem getD_map_range (g : ℕ → ℝ) (n i : ℕ) (h : i < n) :
    ((List.range n).map g).getD i 0 = g i := by
  rw [List.getD_eq_getElem?_getD, List.getElem?_eq_getElem (by simpa using h)]
  simp

theorem getD_replicate_zero (n i j : ℕ) :
    ((List.replicate n (List.replicate n (0 : ℝ))).getD i []).getD j 0 = 0 := by
  rcases lt_or_ge i n with hi | hi
  · rw [List.getD_eq_getElem?_getD (List.replicate n (List.replicate n (0 : ℝ))),
      List.getElem?_eq_getElem (by simpa using hi)]
    rcases lt_or_ge j n with hj | hj
    · rw [List.getElem_replicate, Option.getD_some, List.getD_eq_getElem?_getD,
        List.getElem?_eq_getElem (by simpa using hj)]
      simp
    · rw [List.getElem_replicate, Option.getD_some, List.getD_eq_getElem?_getD,
        List.getElem?_eq_none (by simpa using hj)]
      rfl
  · rw [List.getD_eq_getElem?_getD (List.replicate n (List.replicate n (0 : ℝ))),
      List.getElem?_eq_none (by simpa using hi)]
    rfl

/-! Helper lemmas about `step`: which fields it writes and the elementwise
update formulas. -/

theorem step_timestep (net : CPGNetwork) : net.step.timestep = net.timestep := rfl

theorem step_num_cpgs (net : CPGNetwork) : net.step.num_cpgs = net.num_cpgs := rfl

theorem step_intrinsic_freqs (net : CPGNetwork) :
    net.step.intrinsic_freqs = net.intrinsic_freqs := rfl

theorem step_intrinsic_amps (net : CPGNetwork) :
    net.step.intrinsic_amps = net.intrinsic_amps := rfl

theorem step_coupling_weights (net : CPGNetwork) :
    net.step.coupling_weights = net.coupling_weights := rfl

theorem step_phase_biases (net : CPGNetwork) :
    net.step.phase_biases = net.phase_biases := rfl

theorem step_convergence_coefs (net : CPGNetwork) :
    net.step.convergence_coefs = net.convergence_coefs := rfl

theorem step_random_state (net : CPGNetwork) :
    net.step.random_state = net.random_state := rfl

theorem step_random_index (net : CPGNetwork) :
    net.step.random_index = net.random_index := rfl

theorem step_phases_length (net : CPGNetwork) :
    net.step.curr_phases.length = net.curr_phases.length := by
  simp [CPGNetwork.step, calculate_ddt, List.length_zipWith]

theorem step_magnitudes_length (net : CPGNetwork) :
    net.step.curr_magnitudes.length = net.curr_magnitudes.length := by
  simp [CPGNetwork.step, calculate_ddt, List.length_zipWith]

/-- Elementwise phase update performed by one `step`. -/
theorem step_phase_getD (net : CPGNetwork) (i : ℕ)
    (hi : i < net.curr_phases.length) :
    net.step.curr_phases.getD i 0 =
      net.curr_phases.getD i 0 +
        (2 * Real.pi * net.intrinsic_freqs.getD i 0 +
          ∑ j ∈ Finset.range net.curr_phases.length,
            net.curr_magnitudes.getD j 0 *
              ((net.coupling_weights.getD i []).getD j 0) *
              Real.sin (net.curr_phases.getD j 0 - net.curr_phases.getD i 0 -
                ((net.phase_biases.getD i []).getD j 0))) * net.timestep := by
  simp only [CPGNetwork.step, calculate_ddt]
  rw [getD_zipWith _ _ _ _ hi (by simpa using hi)]
  rw [getD_map_range _ _ _ hi]

/-- Elementwise magnitude update performed by one `step`. -/
theorem step_magnitude_getD (net : CPGNetwork) (i : ℕ)
    (hi : i < net.curr_magnitudes.length) :
    net.step.curr_magnitudes.getD i 0 =
      net.curr_magnitudes.getD i 0 +
        (net.convergence_coefs.getD i 0 *
          (net.intrinsic_amps.getD i 0 - net.curr_magnitudes.getD i 0)) *
          net.timestep := by
  simp only [CPGNetwork.step, calculate_ddt]
  rw [getD_zipWith _ _ _ _ hi (by simpa using hi)]
  rw [getD_map_range _ _ _ hi]

/-! Helper lemmas about `stepk`. -/

theorem stepk_timestep (k : ℕ) (net : CPGNetwork) :
    (stepk k net).timestep = net.timestep := by
  induction k with
  | zero => rfl
  | succ k ih => rw [stepk, step_timestep, ih]

theorem stepk_intrinsic_freqs (k : ℕ) (net : CPGNetwork) :
    (stepk k net).intrinsic_freqs = net.intrinsic_freqs := by
  induction k with
  | zero => rfl
  | succ k ih => rw [stepk, step_intrinsic_freqs, ih]

theorem stepk_intrinsic_amps (k : ℕ) (net : CPGNetwork) :
    (stepk k net).intrinsic_amps = net.intrinsic_amps := by
  induction k with
  | zero => rfl
  | succ k ih => rw [stepk, step_intrinsic_amps, ih]

theorem stepk_coupling_weights (k : ℕ) (net : CPGNetwork) :
    (stepk k net).coupling_weights = net.coupling_weights := by
  induction k with
  | zero => rfl
  | succ k ih => rw [stepk, step_coupling_weights, ih]

theorem stepk_phase_biases (k : ℕ) (net : CPGNetwork) :
    (stepk k net).phase_biases = net.phase_biases := by
  induction k with
  | zero => rfl
  | succ k ih => rw [stepk, step_phase_biases, ih]

theorem stepk_convergence_coefs (k : ℕ) (net : CPGNetwork) :
    (stepk k net).convergence_coefs = net.convergence_coefs := by
  induction k with
  | zero => rfl
  | succ k ih => rw [stepk, step_convergence_coefs, ih]

theorem stepk_phases_length (k : ℕ) (net : CPGNetwork) :
    (stepk k net).curr_phases.length = net.curr_phases.length := by
  induction k with
  | zero => rfl
  | succ k ih => rw [stepk, step_phases_length, ih]

theorem stepk_magnitudes_length (k : ℕ) (net : CPGNetwork) :
    (stepk k net).curr_magnitudes.length = net.curr_magnitudes.length := by
  induction k with
  | zero => rfl
  | succ k ih => rw [stepk, step_magnitudes_length, ih]

/-- C1: one `step()` performs exactly one explicit forward-Euler update
evaluated at the pre-step state: for each oscillator `i`, `curr_phases[i]`
becomes `old_phases[i] + timestep * (2π·intrinsic_freqs[i] +
Σ_j old_magnitudes[j] · coupling_weights[i,j] ·
sin(old_phases[j] − old_phases[i] − phase_biases[i,j]))` and
`curr_magnitudes[i]` becomes `old_magnitudes[i] + timestep ·
convergence_coefs[i] · (intrinsic_amps[i] − old_magnitudes[i])`; the
coupling term uses the source amplitude `r_j` and the difference
`θ_j − θ_i`, and only pre-step values appear on the right-hand side. -/
theorem step_is_forward_euler (net : CPGNetwork)
    (hp : net.curr_phases.length = net.num_cpgs)
    (hm : net.curr_magnitudes.length = net.num_cpgs)
    (i : ℕ) (hi : i < net.num_cpgs) :
    net.step.curr_phases.length = net.num_cpgs ∧
    net.step.curr_magnitudes.length = net.num_cpgs ∧
    net.step.curr_phases.getD i 0 =
      net.curr_phases.getD i 0 +
        net.timestep * (2 * Real.pi * net.intrinsic_freqs.getD i 0 +
          ∑ j ∈ Finset.range net.num_cpgs,
            net.curr_magnitudes.getD j 0 *
              ((net.coupling_weights.getD i []).getD j 0) *
              Real.sin (net.curr_phases.getD j 0 - net.curr_phases.getD i 0 -
                ((net.phase_biases.getD i []).getD j 0))) ∧
    net.step.curr_magnitudes.getD i 0 =
      net.curr_magnitudes.getD i 0 +
        net.timestep * (net.convergence_coefs.getD i 0 *
          (net.intrinsic_amps.getD i 0 - net.curr_magnitudes.getD i 0)) := by
  refine ⟨by rw [step_phases_length, hp], by rw [step_magnitudes_length, hm],
    ?_, ?_⟩
  · rw [step_phase_getD net i (by omega), hp]
    ring
  · rw [step_magnitude_getD net i (by omega)]
    ring

/-- Witness for C1 at the concrete network `netW1` and index `0`. -/
theorem step_is_forward_euler_witness :
    netW1.curr_phases.length = netW1.num_cpgs ∧
    netW1.curr_magnitudes.length = netW1.num_cpgs ∧
    0 < netW1.num_cpgs ∧
    (netW1.step.curr_phases.length = netW1.num_cpgs ∧
     netW1.step.curr_magnitudes.length = netW1.num_cpgs ∧
     netW1.step.curr_phases.getD 0 0 =
       netW1.curr_phases.getD 0 0 +
         netW1.timestep * (2 * Real.pi * netW1.intrinsic_freqs.getD 0 0 +
           ∑ j ∈ Finset.range netW1.num_cpgs,
             netW1.curr_magnitudes.getD j 0 *
               ((netW1.coupling_weights.getD 0 []).getD j 0) *
               Real.sin (netW1.curr_phases.getD j 0 - netW1.curr_phases.getD 0 0 -
                 ((netW1.phase_biases.getD 0 []).getD j 0))) ∧
     netW1.step.curr_magnitudes.getD 0 0 =
       netW1.curr_magnitudes.getD 0 0 +
         netW1.timestep * (netW1.convergence_coefs.getD 0 0 *
           (netW1.intrinsic_amps.getD 0 0 - netW1.curr_magnitudes.getD 0 0))) :=
  ⟨rfl, rfl, by decide, step_is_forward_euler netW1 rfl rfl 0 (by decide)⟩

/-- C7: `step()` leaves every parameter field — `timestep`,
`intrinsic_freqs`, `intrinsic_amps`, `coupling_weights`, `phase_biases`,
`convergence_coefs` (and `num_cpgs` and the random source) — unchanged, so
only `curr_phases` and `curr_magnitudes` are modified by it; `reset()`, the
only other state-modifying operation, also leaves every parameter field
unchanged. -/
theorem step_parameter_frame (net : CPGNetwork) (ip im : Option (List ℝ)) :
    (net.step.timestep = net.timestep ∧
     net.step.num_cpgs = net.num_cpgs ∧
     net.step.intrinsic_freqs = net.intrinsic_freqs ∧
     net.step.intrinsic_amps = net.intrinsic_amps ∧
     net.step.coupling_weights = net.coupling_weights ∧
     net.step.phase_biases = net.phase_biases ∧
     net.step.convergence_coefs = net.convergence_coefs ∧
     net.step.random_state = net.random_state ∧
     net.step.random_index = net.random_index) ∧
    ((net.reset ip im).timestep = net.timestep ∧
     (net.reset ip im).num_cpgs = net.num_cpgs ∧
     (net.reset ip im).intrinsic_freqs = net.intrinsic_freqs ∧
     (net.reset ip im).intrinsic_amps = net.intrinsic_amps ∧
     (net.reset ip im).coupling_weights = net.coupling_weights ∧
     (net.reset ip im).phase_biases = net.phase_biases ∧
     (net.reset ip im).convergence_coefs = net.convergence_coefs ∧
     (net.reset ip im).random_state = net.random_state) :=
  ⟨⟨rfl, rfl, rfl, rfl, rfl, rfl, rfl, rfl, rfl⟩,
   rfl, rfl, rfl, rfl, rfl, rfl, rfl, rfl⟩

/-- Both state vectors written by `step` are determined by the eight
non-random fields of the network alone. -/
theorem step_state_congr (n1 n2 : CPGNetwork)
    (ht : n1.timestep = n2.timestep)
    (hf : n1.intrinsic_freqs = n2.intrinsic_freqs)
    (ha : n1.intrinsic_amps = n2.intrinsic_amps)
    (hw : n1.coupling_weights = n2.coupling_weights)
    (hb : n1.phase_biases = n2.phase_biases)
    (hc : n1.convergence_coefs = n2.convergence_coefs)
    (hp : n1.curr_phases = n2.curr_phases)
    (hm : n1.curr_magnitudes = n2.curr_magnitudes) :
    n1.step.curr_phases = n2.step.curr_phases ∧
    n1.step.curr_magnitudes = n2.step.curr_magnitudes := by
  constructor <;>
    · simp only [CPGNetwork.step, calculate_ddt]
      simp only [ht, hf, ha, hw, hb, hc, hp, hm]

/-- C8: `step()` is deterministic — two networks with the same parameters
and the same initial state (but possibly different random sources and
cursors) have identical state vectors after every number of steps; `step`
consults no random source. -/
theorem step_deterministic (n1 n2 : CPGNetwork)
    (ht : n1.timestep = n2.timestep)
    (hf : n1.intrinsic_freqs = n2.intrinsic_freqs)
    (ha : n1.intrinsic_amps = n2.intrinsic_amps)
    (hw : n1.coupling_weights = n2.coupling_weights)
    (hb : n1.phase_biases = n2.phase_biases)
    (hc : n1.convergence_coefs = n2.convergence_coefs)
    (hp : n1.curr_phases = n2.curr_phases)
    (hm : n1.curr_magnitudes = n2.curr_magnitudes)
    (k : ℕ) :
    (stepk k n1).curr_phases = (stepk k n2).curr_phases ∧
    (stepk k n1).curr_magnitudes = (stepk k n2).curr_magnitudes := by
  induction k with
  | zero => exact ⟨hp, hm⟩
  | succ k ih =>
    rw [stepk, stepk]
    exact step_state_congr _ _
      (by rw [stepk_timestep, stepk_timestep, ht])
      (by rw [stepk_intrinsic_freqs, stepk_intrinsic_freqs, hf])
      (by rw [stepk_intrinsic_amps, stepk_intrinsic_amps, ha])
      (by rw [stepk_coupling_weights, stepk_coupling_weights, hw])
      (by rw [stepk_phase_biases, stepk_phase_biases, hb])
      (by rw [stepk_convergence_coefs, stepk_convergence_coefs, hc])
      ih.1 ih.2

/-- Witness for C8: `netW1` and `netW8` share parameters and state but have
different random sources and cursors; after 2 steps their states agree. -/
theorem step_deterministic_witness :
    netW1.timestep = netW8.timestep ∧
    netW1.intrinsic_freqs = netW8.intrinsic_freqs ∧
    netW1.intrinsic_amps = netW8.intrinsic_amps ∧
    netW1.coupling_weights = netW8.coupling_weights ∧
    netW1.phase_biases = netW8.phase_biases ∧
    netW1.convergence_coefs = netW8.convergence_coefs ∧
    netW1.curr_phases = netW8.curr_phases ∧
    netW1.curr_magnitudes = netW8.curr_magnitudes ∧
    netW1.random_index ≠ netW8.random_index ∧
    ((stepk 2 netW1).curr_phases = (stepk 2 netW8).curr_phases ∧
     (stepk 2 netW1).curr_magnitudes = (stepk 2 netW8).curr_magnitudes) :=
  ⟨rfl, rfl, rfl, rfl, rfl, rfl, rfl, rfl, by decide,
   step_deterministic netW1 netW8 rfl rfl rfl rfl rfl rfl rfl rfl 2⟩

/-- C9: `angles_for(p, a)` is exactly the triple `[hip, thigh, calf]` with
`hip = 0`, `thigh = 0.8 − 0.3·a·sin p`, and
`calf = −1.6 − 0.7·a·sin p` if `sin p > 0`, else `calf = −1.6`. -/
theorem angles_for_formula (p a : ℝ) :
    get_go1_target_angles p a =
      [0, 0.8 - 0.3 * a * Real.sin p,
       if Real.sin p > 0 then -1.6 - 0.7 * a * Real.sin p else -1.6] := by
  simp only [get_go1_target_angles, List.cons.injEq, and_true]
  refine ⟨by norm_num, by ring, ?_⟩
  split_ifs with h
  · ring
  · rfl

/-- The magnitude vector written by `step` is determined by `timestep`,
`convergence_coefs`, `intrinsic_amps` and `curr_magnitudes` alone. -/
theorem step_magnitudes_congr (n1 n2 : CPGNetwork)
    (ht : n1.timestep = n2.timestep)
    (hc : n1.convergence_coefs = n2.convergence_coefs)
    (ha : n1.intrinsic_amps = n2.intrinsic_amps)
    (hm : n1.curr_magnitudes = n2.curr_magnitudes) :
    n1.step.curr_magnitudes = n2.step.curr_magnitudes := by
  simp only [CPGNetwork.step, calculate_ddt]
  simp only [ht, hc, ha, hm]

/-- C10: the magnitude trajectory is independent of the phase subsystem —
two networks with the same `timestep`, `convergence_coefs`,
`intrinsic_amps` and initial `curr_magnitudes`, but arbitrary phases,
frequencies, coupling weights and phase biases, have identical
`curr_magnitudes` after any number of steps. -/
theorem magnitudes_independent_of_phases (n1 n2 : CPGNetwork)
    (ht : n1.timestep = n2.timestep)
    (hc : n1.convergence_coefs = n2.convergence_coefs)
    (ha : n1.intrinsic_amps = n2.intrinsic_amps)
    (hm : n1.curr_magnitudes = n2.curr_magnitudes)
    (k : ℕ) :
    (stepk k n1).curr_magnitudes = (stepk k n2).curr_magnitudes := by
  induction k with
  | zero => exact hm
  | succ k ih =>
    rw [stepk, stepk]
    exact step_magnitudes_congr _ _
      (by rw [stepk_timestep, stepk_timestep, ht])
      (by rw [stepk_convergence_coefs, stepk_convergence_coefs, hc])
      (by rw [stepk_intrinsic_amps, stepk_intrinsic_amps, ha])
      ih

/-- Witness for C10: `netW1` and `netW10` differ in phases, frequencies,
coupling weights and phase biases, yet have equal magnitudes after 2
steps. -/
theorem magnitudes_independent_of_phases_witness :
    netW1.timestep = netW10.timestep ∧
    netW1.convergence_coefs = netW10.convergence_coefs ∧
    netW1.intrinsic_amps = netW10.intrinsic_amps ∧
    netW1.curr_magnitudes = netW10.curr_magnitudes ∧
    netW1.curr_phases ≠ netW10.curr_phases ∧
    (stepk 2 netW1).curr_magnitudes = (stepk 2 netW10).curr_magnitudes :=
  ⟨rfl, rfl, rfl, rfl, by norm_num [netW1, netW10],
   magnitudes_independent_of_phases netW1 netW10 rfl rfl rfl rfl 2⟩

/-- With an all-zero coupling matrix the coupling sum vanishes and one
`step` advances each phase by exactly `2π·ν_i·timestep`. -/
theorem step_phase_getD_zero_w (net : CPGNetwork)
    (hw : ∀ a b : ℕ, ((net.coupling_weights.getD a []).getD b 0) = 0)
    (i : ℕ) (hi : i < net.curr_phases.length) :
    net.step.curr_phases.getD i 0 =
      net.curr_phases.getD i 0 +
        2 * Real.pi * net.intrinsic_freqs.getD i 0 * net.timestep := by
  rw [step_phase_getD net i hi]
  have hsum : (∑ j ∈ Finset.range net.curr_phases.length,
      net.curr_magnitudes.getD j 0 *
        ((net.coupling_weights.getD i []).getD j 0) *
        Real.sin (net.curr_phases.getD j 0 - net.curr_phases.getD i 0 -
          ((net.phase_biases.getD i []).getD j 0))) = 0 :=
    Finset.sum_eq_zero (fun j _ => by rw [hw i j]; ring)
  rw [hsum]
  ring

/-- C4: if `coupling_weights` is the zero matrix, each oscillator's phase
evolves independently and linearly: after `k` steps, `curr_phases[i]`
equals its initial value plus `k · timestep · 2π · intrinsic_freqs[i]`. -/
theorem zero_coupling_linear_phases (net : CPGNetwork)
    (hw : net.coupling_weights =
      List.replicate net.num_cpgs (List.replicate net.num_cpgs (0 : ℝ)))
    (k i : ℕ) (hi : i < net.curr_phases.length) :
    (stepk k net).curr_phases.getD i 0 =
      net.curr_phases.getD i 0 +
        (k : ℝ) * net.timestep * 2 * Real.pi * net.intrinsic_freqs.getD i 0 := by
  induction k with
  | zero => simp [stepk]
  | succ k ih =>
    rw [stepk]
    rw [step_phase_getD_zero_w (stepk k net)
      (fun a b => by rw [stepk_coupling_weights, hw]; exact getD_replicate_zero _ _ _)
      i (by rw [stepk_phases_length]; exact hi)]
    rw [ih, stepk_intrinsic_freqs, stepk_timestep]
    push_cast
    ring

/-- Witness for C4 at the zero-coupling network `netZ`, `k = 3`, `i = 0`. -/
theorem zero_coupling_linear_phases_witness :
    netZ.coupling_weights =
      List.replicate netZ.num_cpgs (List.replicate netZ.num_cpgs (0 : ℝ)) ∧
    0 < netZ.curr_phases.length ∧
    (stepk 3 netZ).curr_phases.getD 0 0 =
      netZ.curr_phases.getD 0 0 +
        ((3 : ℕ) : ℝ) * netZ.timestep * 2 * Real.pi * netZ.intrinsic_freqs.getD 0 0 :=
  ⟨rfl, by decide, zero_coupling_linear_phases netZ rfl 3 0 (by decide)⟩

/-- C5 (amended): with zero coupling, target amplitude `R`, initial
magnitude `0`, and the forward-Euler stability condition
`0 < convergence_coefs[i] · timestep ≤ 1`, the magnitude follows the
exponential-approach law `R − m_k = (1 − α·Δt)^k · R`, the distance to `R`
is monotonically non-increasing, and for every `ε > 0` there is a step
count after which `|m_k − R| < ε`. -/
theorem amplitude_convergence (net : CPGNetwork)
    (hw : net.coupling_weights =
      List.replicate net.num_cpgs (List.replicate net.num_cpgs (0 : ℝ)))
    (i : ℕ) (hi : i < net.curr_magnitudes.length)
    (h0 : net.curr_magnitudes.getD i 0 = 0)
    (hpos : 0 < net.convergence_coefs.getD i 0 * net.timestep)
    (hle : net.convergence_coefs.getD i 0 * net.timestep ≤ 1) :
    (∀ k : ℕ,
      net.intrinsic_amps.getD i 0 - (stepk k net).curr_magnitudes.getD i 0 =
        (1 - net.convergence_coefs.getD i 0 * net.timestep) ^ k *
          net.intrinsic_amps.getD i 0) ∧
    (∀ k : ℕ,
      |(stepk (k + 1) net).curr_magnitudes.getD i 0 - net.intrinsic_amps.getD i 0| ≤
        |(stepk k net).curr_magnitudes.getD i 0 - net.intrinsic_amps.getD i 0|) ∧
    (∀ ε : ℝ, 0 < ε → ∃ K : ℕ, ∀ k : ℕ, K ≤ k →
      |(stepk k net).curr_magnitudes.getD i 0 - net.intrinsic_amps.getD i 0| < ε) := by
  set α := net.convergence_coefs.getD i 0 with hα
  set R := net.intrinsic_amps.getD i 0 with hR
  set q : ℝ := 1 - α * net.timestep with hq
  have hq0 : 0 ≤ q := by rw [hq]; linarith
  have hq1 : q < 1 := by rw [hq]; linarith
  have key : ∀ k : ℕ,
      R - (stepk k net).curr_magnitudes.getD i 0 = q ^ k * R := by
    intro k
    induction k with
    | zero => rw [stepk, h0, pow_zero, one_mul, sub_zero]
    | succ k ih =>
      rw [stepk]
      rw [step_magnitude_getD (stepk k net) i
        (by rw [stepk_magnitudes_length]; exact hi)]
      rw [stepk_convergence_coefs, stepk_intrinsic_amps, stepk_timestep]
      rw [← hα, ← hR]
      have : R - ((stepk k net).curr_magnitudes.getD i 0 +
          α * (R - (stepk k net).curr_magnitudes.getD i 0) * net.timestep) =
          q * (R - (stepk k net).curr_magnitudes.getD i 0) := by
        rw [hq]; ring
      rw [this, ih, pow_succ]
      ring
  have habs : ∀ k : ℕ,
      |(stepk k net).curr_magnitudes.getD i 0 - R| = q ^ k * |R| := by
    intro k
    rw [abs_sub_comm, key k, abs_mul, abs_of_nonneg (pow_nonneg hq0 k)]
  refine ⟨key, ?_, ?_⟩
  · intro k
    rw [habs, habs, pow_succ]
    have : q ^ k * q * |R| = q * (q ^ k * |R|) := by ring
    rw [this]
    exact mul_le_of_le_one_left (by positivity) (le_of_lt hq1)
  · intro ε hε
    rcases eq_or_ne R 0 with hR0 | hR0
    · refine ⟨0, fun k _ => ?_⟩
      rw [habs, hR0, abs_zero, mul_zero]
      exact hε
    · have hRpos : 0 < |R| := abs_pos.mpr hR0
      obtain ⟨n, hn⟩ := exists_pow_lt_of_lt_one (div_pos hε hRpos) hq1
      refine ⟨n, fun k hk => ?_⟩
      rw [habs]
      calc q ^ k * |R| ≤ q ^ n * |R| := by
            apply mul_le_mul_of_nonneg_right _ (le_of_lt hRpos)
            exact pow_le_pow_of_le_one hq0 (le_of_lt hq1) hk
        _ < ε := (lt_div_iff₀ hRpos).mp hn

/-- Witness for C5 at `netZ` (where `α·Δt = 1`), index `0`, exponential
law instantiated at `k = 1`. -/
theorem amplitude_convergence_witness :
    netZ.coupling_weights =
      List.replicate netZ.num_cpgs (List.replicate netZ.num_cpgs (0 : ℝ)) ∧
    0 < netZ.curr_magnitudes.length ∧
    netZ.curr_magnitudes.getD 0 0 = 0 ∧
    0 < netZ.convergence_coefs.getD 0 0 * netZ.timestep ∧
    netZ.convergence_coefs.getD 0 0 * netZ.timestep ≤ 1 ∧
    netZ.intrinsic_amps.getD 0 0 - (stepk 1 netZ).curr_magnitudes.getD 0 0 =
      (1 - netZ.convergence_coefs.getD 0 0 * netZ.timestep) ^ 1 *
        netZ.intrinsic_amps.getD 0 0 :=
  ⟨rfl, by decide, rfl, by norm_num [netZ], by norm_num [netZ],
   (amplitude_convergence netZ rfl 0 (by decide) rfl
      (by norm_num [netZ]) (by norm_num [netZ])).1 1⟩

/-- Counterexample to C5 as stated: for the zero-coupling network `netB`
with `convergence_coefs[0] · timestep = 3`, `R = 1` and initial magnitude
`0`, the magnitude sequence is `0, 3, −3, …`: it overshoots and moves
strictly away from `R`, so it does not approach `R` monotonically and
never converges. -/
theorem amplitude_convergence_counterexample :
    netB.coupling_weights =
      List.replicate netB.num_cpgs (List.replicate netB.num_cpgs (0 : ℝ)) ∧
    netB.curr_magnitudes.getD 0 0 = 0 ∧
    netB.intrinsic_amps.getD 0 0 = 1 ∧
    (stepk 1 netB).curr_magnitudes.getD 0 0 = 3 ∧
    (stepk 2 netB).curr_magnitudes.getD 0 0 = -3 ∧
    ¬ (|(stepk 2 netB).curr_magnitudes.getD 0 0 - netB.intrinsic_amps.getD 0 0| ≤
       |(stepk 1 netB).curr_magnitudes.getD 0 0 - netB.intrinsic_amps.getD 0 0|) := by
  have h1 : (stepk 1 netB).curr_magnitudes.getD 0 0 = 3 := by
    rw [show stepk 1 netB = netB.step from rfl,
      step_magnitude_getD netB 0 (by decide)]
    norm_num [netB]
  have h2 : (stepk 2 netB).curr_magnitudes.getD 0 0 = -3 := by
    rw [show stepk 2 netB = (stepk 1 netB).step from rfl,
      step_magnitude_getD (stepk 1 netB) 0
        (by rw [stepk_magnitudes_length]; decide),
      stepk_convergence_coefs, stepk_intrinsic_amps, stepk_timestep, h1]
    norm_num [netB]
  refine ⟨rfl, rfl, rfl, h1, h2, ?_⟩
  rw [h1, h2]
  have e1 : |(-3 : ℝ) - netB.intrinsic_amps.getD 0 0| = 4 := by
    rw [show netB.intrinsic_amps.getD 0 0 = (1 : ℝ) from rfl]
    rw [show (-3 : ℝ) - 1 = -4 by norm_num, abs_neg, abs_of_nonneg]
    norm_num
  have e2 : |(3 : ℝ) - netB.intrinsic_amps.getD 0 0| = 2 := by
    rw [show netB.intrinsic_amps.getD 0 0 = (1 : ℝ) from rfl]
    rw [show (3 : ℝ) - 1 = 2 by norm_num, abs_of_nonneg]
    norm_num
  rw [e1, e2]
  norm_num

/-- C3: `reset()` with `init_phases` omitted sets `curr_phases` to `N`
fresh consecutive draws from the instance's own random source, each scaled
by `2π` (hence uniform on `[0, 2π)` whenever each raw draw lies in
`[0, 1)`), advancing the instance's draw cursor by `N`; with
`init_magnitudes` omitted it sets `curr_magnitudes` to the zero vector of
length `N`; a supplied vector is installed as-is. -/
theorem reset_state_spec (net : CPGNetwork) (ip im : Option (List ℝ))
    (p m : List ℝ)
    (hrand : ∀ k : ℕ, 0 ≤ net.random_state k ∧ net.random_state k < 1) :
    ((net.reset none im).curr_phases.length = net.num_cpgs ∧
     (∀ i : ℕ, i < net.num_cpgs →
       (net.reset none im).curr_phases.getD i 0 =
         net.random_state (net.random_index + i) * (2 * Real.pi) ∧
       0 ≤ (net.reset none im).curr_phases.getD i 0 ∧
       (net.reset none im).curr_phases.getD i 0 < 2 * Real.pi) ∧
     (net.reset none im).random_index = net.random_index + net.num_cpgs) ∧
    (net.reset ip none).curr_magnitudes = List.replicate net.num_cpgs 0 ∧
    (net.reset (some p) im).curr_phases = p ∧
    (net.reset ip (some m)).curr_magnitudes = m := by
  have hphases : (net.reset none im).curr_phases =
      (List.range net.num_cpgs).map
        (fun k => net.random_state (net.random_index + k) * 2 * Real.pi) := rfl
  refine ⟨⟨by rw [hphases]; simp, ?_, rfl⟩, rfl, rfl, rfl⟩
  intro i hi
  rw [hphases, getD_map_range _ _ _ hi]
  have h2pi : (0 : ℝ) < 2 * Real.pi := by positivity
  obtain ⟨hl, hu⟩ := hrand (net.random_index + i)
  refine ⟨by ring, by positivity, ?_⟩
  calc net.random_state (net.random_index + i) * 2 * Real.pi
      = net.random_state (net.random_index + i) * (2 * Real.pi) := by ring
    _ < 1 * (2 * Real.pi) := by
        exact mul_lt_mul_of_pos_right hu h2pi
    _ = 2 * Real.pi := one_mul _

/-- Witness for C3 at `netZ` (whose random source constantly draws `0`),
with `ip = some [3]`, `im = some [4]`. -/
theorem reset_state_spec_witness :
    (∀ k : ℕ, 0 ≤ netZ.random_state k ∧ netZ.random_state k < 1) ∧
    (((netZ.reset none (some [4])).curr_phases.length = netZ.num_cpgs ∧
      (∀ i : ℕ, i < netZ.num_cpgs →
        (netZ.reset none (some [4])).curr_phases.getD i 0 =
          netZ.random_state (netZ.random_index + i) * (2 * Real.pi) ∧
        0 ≤ (netZ.reset none (some [4])).curr_phases.getD i 0 ∧
        (netZ.reset none (some [4])).curr_phases.getD i 0 < 2 * Real.pi) ∧
      (netZ.reset none (some [4])).random_index =
        netZ.random_index + netZ.num_cpgs) ∧
     (netZ.reset (some [3]) none).curr_magnitudes =
       List.replicate netZ.num_cpgs 0 ∧
     (netZ.reset (some [3]) (some [4])).curr_phases = [3] ∧
     (netZ.reset (some [3]) (some [4])).curr_magnitudes = [4]) :=
  ⟨fun k => by norm_num [netZ],
   reset_state_spec netZ (some [3]) (some [4]) [3] [4]
     (fun k => by norm_num [netZ])⟩

/-- C2 (divergence witness): the constructor's assert block checks every
parameter shape except `intrinsic_amps`, so construction succeeds with a
length-1 `intrinsic_amps` on a 2-oscillator network (first conjunct),
while the same mismatch on `convergence_coefs` is caught (second
conjunct). -/
theorem init_accepts_mismatched_amps :
    (CPGNetwork.init 1 [1, 1] [1] [[0, 0], [0, 0]] [[0, 0], [0, 0]] [1, 1]
        (some [0, 0]) (some [0, 0]) (fun _ => 0)).isSome = true ∧
    (CPGNetwork.init 1 [1, 1] [1, 1] [[0, 0], [0, 0]] [[0, 0], [0, 0]] [1]
        (some [0, 0]) (some [0, 0]) (fun _ => 0)).isSome = false :=
  ⟨rfl, rfl⟩

/-- C6 (amended): `curr_phases.length = curr_magnitudes.length = N` holds
after every successful construction and is preserved by every `step()`
call; it is preserved by a `reset()` call provided any caller-supplied
`init_phases` or `init_magnitudes` has length `N` (the code installs
supplied vectors as-is, without checking their length). -/
theorem state_length_invariant :
    (∀ (ts : ℝ) (freqs amps : List ℝ) (w b : List (List ℝ))
        (coefs : List ℝ) (ip im : Option (List ℝ)) (rs : ℕ → ℝ)
        (net : CPGNetwork),
      CPGNetwork.init ts freqs amps w b coefs ip im rs = some net →
      net.curr_phases.length = net.num_cpgs ∧
      net.curr_magnitudes.length = net.num_cpgs) ∧
    (∀ net : CPGNetwork,
      net.step.curr_phases.length = net.curr_phases.length ∧
      net.step.curr_magnitudes.length = net.curr_magnitudes.length ∧
      net.step.num_cpgs = net.num_cpgs) ∧
    (∀ (net : CPGNetwork) (ip im : Option (List ℝ)),
      (∀ x : List ℝ, ip = some x → x.length = net.num_cpgs) →
      (∀ x : List ℝ, im = some x → x.length = net.num_cpgs) →
      (net.reset ip im).curr_phases.length = net.num_cpgs ∧
      (net.reset ip im).curr_magnitudes.length = net.num_cpgs ∧
      (net.reset ip im).num_cpgs = net.num_cpgs) := by
  refine ⟨?_, fun net => ⟨step_phases_length net, step_magnitudes_length net, rfl⟩, ?_⟩
  · intro ts freqs amps w b coefs ip im rs net h
    rw [CPGNetwork.init] at h
    split at h
    case isTrue hcond =>
      rw [Option.some.injEq] at h
      simp only [shape_asserts, Bool.and_eq_true, beq_iff_eq] at hcond
      rw [← h]
      exact ⟨hcond.1.2, hcond.2⟩
    case isFalse => exact absurd h (Option.noConfusion)
  · intro net ip im hip him
    match ip, im with
    | none, none =>
        refine ⟨by simp [CPGNetwork.reset], by simp [CPGNetwork.reset], rfl⟩
    | none, some y =>
        refine ⟨by simp [CPGNetwork.reset], ?_, rfl⟩
        rw [show (net.reset none (some y)).curr_magnitudes = y from rfl]
        exact him y rfl
    | some x, none =>
        refine ⟨?_, by simp [CPGNetwork.reset], rfl⟩
        rw [show (net.reset (some x) none).curr_phases = x from rfl]
        exact hip x rfl
    | some x, some y =>
        refine ⟨?_, ?_, rfl⟩
        · rw [show (net.reset (some x) (some y)).curr_phases = x from rfl]
          exact hip x rfl
        · rw [show (net.reset (some x) (some y)).curr_magnitudes = y from rfl]
          exact him y rfl

/-- Witness for C6: the two-oscillator network `netA` is produced by the
constructor, satisfies the invariant, keeps it across `step`, and keeps it
across a `reset` whose supplied phase vector has length 2. -/
theorem state_length_invariant_witness :
    CPGNetwork.init 1 [1, 1] [1, 1] [[0, 0], [0, 0]] [[0, 0], [0, 0]] [1, 1]
        (some [0, 0]) (some [0, 0]) (fun _ => 0) = some netA ∧
    (netA.curr_phases.length = netA.num_cpgs ∧
     netA.curr_magnitudes.length = netA.num_cpgs) ∧
    (netA.step.curr_phases.length = netA.curr_phases.length ∧
     netA.step.curr_magnitudes.length = netA.curr_magnitudes.length ∧
     netA.step.num_cpgs = netA.num_cpgs) ∧
    ((netA.reset (some [0, 0]) none).curr_phases.length = netA.num_cpgs ∧
     (netA.reset (some [0, 0]) none).curr_magnitudes.length = netA.num_cpgs ∧
     (netA.reset (some [0, 0]) none).num_cpgs = netA.num_cpgs) :=
  ⟨rfl,
   state_length_invariant.1 1 [1, 1] [1, 1] [[0, 0], [0, 0]] [[0, 0], [0, 0]]
     [1, 1] (some [0, 0]) (some [0, 0]) (fun _ => 0) netA rfl,
   state_length_invariant.2.1 netA,
   state_length_invariant.2.2 netA (some [0, 0]) none
     (fun x hx => by rw [← Option.some.inj hx]; rfl)
     (fun x hx => Option.noConfusion hx)⟩

/-- Counterexample to C6 as stated: `netA` is a constructed 2-oscillator
network, yet a standalone `reset` with a caller-supplied length-1
`init_phases` leaves `curr_phases` with length 1 ≠ `num_cpgs` — the
invariant is not preserved by every `reset()` call with caller-supplied
vectors. -/
theorem state_length_invariant_counterexample :
    CPGNetwork.init 1 [1, 1] [1, 1] [[0, 0], [0, 0]] [[0, 0], [0, 0]] [1, 1]
        (some [0, 0]) (some [0, 0]) (fun _ => 0) = some netA ∧
    (netA.reset (some [0]) none).curr_phases.length ≠ netA.num_cpgs :=
  ⟨rfl, by decide⟩

end CPG
